import Mathlib

/-!
Verification of the `ConvMulFusion` graph-rewriting pass
(`onnxruntime/core/optimizer/conv_mul_fusion.cc`).

The pass itself (`ConvMulFusion::ApplyImpl`) is embedded directly from the
source.  The collaborators it uses — the `Initializer` constant-tensor
algebra, the `Graph` IR and the `graph_utils` predicates — are not part of
the available sources, so they are modelled from the specification
(sections 3, 4.1 and 4.2): tensors carry a dtype tag, a dimension list and
a flat value buffer; the graph is an arena of nodes addressed by stable
integer index, with producer/consumer edges recorded as node indices, a
name-keyed initializer store, and a list of declared graph outputs.
Tensor element values are modelled as integers (exact arithmetic standing
in for the floating-point buffers; the algebra only multiplies, and every
value a claim mentions is an integer).
-/

namespace ConvMulFusion

/-- Modelled from the spec: the graph's persisted constant-tensor form
(`TensorProto`): a name, a data-type tag, a dimension list (rank ≥ 0) and a
flat value buffer. -/
structure TensorProto where
  name : String
  dtype : Nat
  dims : List Nat
  vals : List Int
deriving DecidableEq, Repr

/-- Modelled from the spec (§4.1): in-memory constant tensor used by the
initializer algebra: dtype, shape and flat data buffer. -/
structure Initializer where
  dtype : Nat
  dims : List Nat
  data : List Int
deriving DecidableEq, Repr

/-- The element count of a tensor: the product of its dimensions
(rank-0 tensors have size 1). -/
def Initializer.size (i : Initializer) : Nat := i.dims.prod

/-- Modelled from the spec: an `Initializer` is constructed from the
persisted tensor form, taking over dtype, dims and values. -/
def Initializer.ofProto (p : TensorProto) : Initializer :=
  ⟨p.dtype, p.dims, p.vals⟩

/-- Modelled from the spec (§4.1 `scale_by_axis`): multiply each slice of
`self` along the leading `axis` block boundary by the corresponding scalar
of `other`; a size-1 `other` (in particular a rank-0 scalar) broadcasts to
every element.  The block size is the product of `self`'s dimensions from
`axis` on, so flat element `k` belongs to block `k / blockSize`. -/
def Initializer.scale_by_axis (self other : Initializer) (axis : Nat) : Initializer :=
  let num := (self.dims.drop axis).prod
  if other.size = 1 then
    { self with data := self.data.map (· * other.data.headD 0) }
  else
    { self with data := self.data.mapIdx (fun k v => v * other.data.getD (k / num) 0) }

/-- Modelled from the spec (§4.1 `mul`): elementwise product; a size-1
operand broadcasts its single scalar over every element. -/
def Initializer.mul (self other : Initializer) : Initializer :=
  if other.size = 1 then
    { self with data := self.data.map (· * other.data.headD 0) }
  else
    { self with data := List.zipWith (· * ·) self.data other.data }

/-- Modelled from the spec (§4.1 round-trip): export back to the persisted
form, replacing only the value buffer of the copied base proto; name,
dtype and dimension metadata of `base` are preserved. -/
def Initializer.toProto (i : Initializer) (base : TensorProto) : TensorProto :=
  { base with vals := i.data }

/-- Modelled from the spec (§4.1 `is_supported_dtype`): only the
floating-point element types are supported (the ONNX tags FLOAT = 1,
FLOAT16 = 10, DOUBLE = 11); a null tensor pointer is not supported. -/
def isSupportedDataType : Option TensorProto → Bool
  | none => false
  | some p => p.dtype == 1 || p.dtype == 10 || p.dtype == 11

/-- Modelled from the spec (§3): an operator instance.  Edges are recorded
as node indices into the graph's arena (§9): `inputEdges` lists the
producer of each node-produced input, `outputEdges` lists one entry per
consuming input slot of this node's outputs.  Nodes of this fragment carry
no nested subgraphs. -/
structure Node where
  opType : String
  sinceVersion : Nat
  domain : String
  provider : String
  inputDefs : List String
  outputDefs : List String
  inputEdges : List Nat
  outputEdges : List Nat
deriving DecidableEq, Repr

/-- Modelled from the spec (§3): the graph owns a node arena (stable
indices; a removed node leaves a `none` slot), a name-keyed initializer
store (a stored entry may be a null constant — the corrupt-entry case the
spec's §9 open question distinguishes from an absent entry), and the list
of declared graph outputs. -/
structure Graph where
  nodes : List (Option Node)
  initializers : List (String × Option TensorProto)
  graphOutputs : List String
deriving DecidableEq, Repr

/-- Arena lookup by stable node index (`Graph::GetNode`): `none` when the
index is out of range or the slot was vacated by a removal. -/
def Graph.getNode (g : Graph) (i : Nat) : Option Node :=
  (g.nodes.getD i none)

/-- A node index is live when its arena slot holds a node. -/
def Graph.isLive (g : Graph) (i : Nat) : Bool :=
  (g.getNode i).isSome

/-- Modelled from the spec (§4.2 `get_initializer`): name lookup in the
initializer store.  The outer option is the lookup result
(`GetInitializedTensor`'s boolean); the inner option is the stored
constant, which a corrupt store may hold as null. -/
def Graph.getInitializedTensor (g : Graph) (name : String) : Option (Option TensorProto) :=
  (g.initializers.find? (fun p => p.1 == name)).map (·.2)

/-- Modelled from the spec: remove the named constant from the store. -/
def Graph.removeInitializedTensor (g : Graph) (name : String) : Graph :=
  { g with initializers := g.initializers.filter (fun p => p.1 != name) }

/-- Modelled from the spec: install a constant in the store under the
name recorded in the tensor itself. -/
def Graph.addInitializedTensor (g : Graph) (t : TensorProto) : Graph :=
  { g with initializers := g.initializers ++ [(t.name, some t)] }

/-- Replace the node stored at arena slot `i`. -/
def Graph.updateNode (g : Graph) (i : Nat) (n : Node) : Graph :=
  { g with nodes := g.nodes.set i (some n) }

/-- Modelled from the spec (§4.2 `remove_node`): vacate arena slot `i`;
indices of other nodes are unaffected. -/
def Graph.removeNode (g : Graph) (i : Nat) : Graph :=
  { g with nodes := g.nodes.set i none }

/-- `Graph::IsNodeOutputsInGraphOutputs`: does any output value-reference
of the node appear among the declared graph outputs? -/
def Graph.isNodeOutputsInGraphOutputs (g : Graph) (n : Node) : Bool :=
  n.outputDefs.any (fun d => g.graphOutputs.contains d)

/-- Modelled from the spec (`graph_utils::IsSupportedOptypeVersionAndDomain`):
operator type, operator-set version and (default, empty) domain must match. -/
def isSupportedOptypeVersionAndDomain (n : Node) (op : String) (ver : Nat) : Bool :=
  n.opType == op && n.sinceVersion == ver && n.domain == ""

/-- Modelled from the spec (`graph_utils::IsSupportedProvider`): the node's
execution-provider tag must lie in the pass's compatible-provider set; an
empty set means every provider is compatible. -/
def isSupportedProvider (n : Node) (compat : List String) : Bool :=
  compat.isEmpty || compat.contains n.provider

/-- The anchor test of `ConvMulFusion::ApplyImpl`: the node is a `Conv` at
operator-set version 1 in the default domain, on a compatible provider.
(The single-output-edge test is performed on the edge list itself.) -/
def convCandidate (compat : List String) (n : Node) : Bool :=
  isSupportedOptypeVersionAndDomain n "Conv" 1 && isSupportedProvider n compat

/-- The follow-on test of `ConvMulFusion::ApplyImpl`: the consumer is a
`Mul` at operator-set version 7, has exactly one input edge, none of its
outputs is a declared graph output, and it runs on the anchor's provider. -/
def mulCandidate (g : Graph) (conv mul : Node) : Bool :=
  isSupportedOptypeVersionAndDomain mul "Mul" 7 &&
  mul.inputEdges.length == 1 &&
  !(g.isNodeOutputsInGraphOutputs mul) &&
  mul.provider == conv.provider

/-- The weight pointer after `graph.GetInitializedTensor(conv_inputs[1]->Name(), …)`:
null both when the lookup fails and when the store holds a null entry. -/
def wLookup (g : Graph) (conv : Node) : Option TensorProto :=
  (g.getInitializedTensor (conv.inputDefs.getD 1 "")).join

/-- The scale pointer after `graph.GetInitializedTensor(mul_inputs[1]->Name(), …)`. -/
def sLookup (g : Graph) (mul : Node) : Option TensorProto :=
  (g.getInitializedTensor (mul.inputDefs.getD 1 "")).join

/-- The combined dtype/shape gate of `ConvMulFusion::ApplyImpl` on the
weight and scale constants: both supported, equal dtypes, weight rank ≥ 4,
scale either rank 0 or rank = weight rank − 1 with matching leading
dimension, and every scale dimension after the first equal to 1. -/
def shapeDtypeGate (w s : Option TensorProto) : Bool :=
  match w, s with
  | some w, some s =>
    isSupportedDataType (some w) && isSupportedDataType (some s) &&
    w.dtype == s.dtype &&
    decide (4 ≤ w.dims.length) &&
    (s.dims.length == 0 ||
      (s.dims.length == w.dims.length - 1 && w.dims.getD 0 0 == s.dims.getD 0 0)) &&
    (s.dims.length == 0 || s.dims.tail.all (fun d => d == 1))
  | _, _ => false

/-- Outcome of the optional-bias branch of `ConvMulFusion::ApplyImpl`. -/
inductive BiasCheck where
  | noBias
  | skip
  | fail
  | ok (b : TensorProto)
deriving DecidableEq, Repr

/-- The optional-bias branch: when the anchor declares exactly three
inputs, the bias constant is looked up; a failed lookup skips the match, a
null stored constant is a hard internal error, and a resolved constant
must pass its own dtype/shape gate (matching dtype, rank exactly 1, and —
unless the scale is rank 0 — leading dimension equal to the scale's). -/
def biasCheck (g : Graph) (conv : Node) (s : TensorProto) : BiasCheck :=
  if conv.inputDefs.length ≠ 3 then .noBias
  else
    match g.getInitializedTensor (conv.inputDefs.getD 2 "") with
    | none => .skip
    | some none => .fail
    | some (some b) =>
      if isSupportedDataType (some b) && b.dtype == s.dtype &&
         b.dims.length == 1 &&
         (s.dims.length == 0 || b.dims.getD 0 0 == s.dims.getD 0 0) then
        .ok b
      else
        .skip

/-- The two error statuses `ConvMulFusion::ApplyImpl` can return: the
`FAIL` "Internal error in ConvMulFusion" for a null bias constant, and
`INVALID_ARGUMENT` for an unresolvable consumer during rewiring. -/
inductive Err where
  | internalFail
  | invalidArgument
deriving DecidableEq, Repr

/-- The rewiring loop of `ConvMulFusion::ApplyImpl`: for each recorded
consumer of the follow-on's output, resolve it in the arena (an
unresolvable index aborts with `INVALID_ARGUMENT`, keeping every rewire
already performed) and replace each of its input defs equal to the
follow-on's output def by the anchor's output def. -/
def rewireLoop (g : Graph) (edges : List Nat) (mulOut convOut : String) :
    Graph × Option Err :=
  match edges with
  | [] => (g, none)
  | j :: rest =>
    match g.getNode j with
    | none => (g, some .invalidArgument)
    | some out =>
      let out' := { out with
        inputDefs := out.inputDefs.map (fun d => if d == mulOut then convOut else d) }
      rewireLoop (g.updateNode j out') rest mulOut convOut

/-- The fused weight the rewrite computes: the scale folded into the
weight along axis 1 (`conv_W->scale_by_axis(*mul_B, 1)`). -/
def fusedWeight (wp sp : TensorProto) : TensorProto :=
  ((Initializer.ofProto wp).scale_by_axis (Initializer.ofProto sp) 1).toProto wp

/-- The fused bias the rewrite computes: elementwise `mul` when the scale
is non-scalar, `scale_by_axis` along axis 0 by the scalar otherwise. -/
def fusedBias (bp sp : TensorProto) : TensorProto :=
  (if sp.dims.length ≠ 0 then
    (Initializer.ofProto bp).mul (Initializer.ofProto sp)
   else
    (Initializer.ofProto bp).scale_by_axis (Initializer.ofProto sp) 0).toProto bp

/-- The initializer replacement of one matched iteration: remove the old
weight constant and install the fused one under the original name, and the
same for the bias when the bias branch produced one. -/
def rewriteStore (g : Graph) (conv : Node) (wp sp : TensorProto)
    (bc : BiasCheck) : Graph :=
  let g1 :=
    (g.removeInitializedTensor (conv.inputDefs.getD 1 "")
      ).addInitializedTensor (fusedWeight wp sp)
  match bc with
  | .ok bp =>
    (g1.removeInitializedTensor (conv.inputDefs.getD 2 "")
      ).addInitializedTensor (fusedBias bp sp)
  | _ => g1

/-- The commit tail of one matched iteration of
`ConvMulFusion::ApplyImpl`: replace the weight initializer (and the bias
initializer when the bias branch produced one) under the original names,
rewire every consumer of the follow-on's output onto the anchor's output,
and record the follow-on for deferred removal; a rewiring failure aborts
with the partially rewritten graph. -/
def doRewrite (g : Graph) (conv mul : Node) (nextIdx : Nat)
    (wp sp : TensorProto) (bc : BiasCheck) : Graph × List Nat × Option Err :=
  match rewireLoop (rewriteStore g conv wp sp bc) mul.outputEdges
      (mul.outputDefs.getD 0 "") (conv.outputDefs.getD 0 "") with
  | (g3, some e) => (g3, [], some e)
  | (g3, none) => (g3, [nextIdx], none)

/-- One iteration of the traversal loop of `ConvMulFusion::ApplyImpl` at
arena index `idx`: returns the (possibly rewritten) graph, the list of
node indices newly recorded for deferred removal (empty or the matched
follow-on's index), and an error status when the iteration aborted the
pass.  Skipped anchors leave the graph untouched. -/
def step (compat : List String) (g : Graph) (idx : Nat) :
    Graph × List Nat × Option Err :=
  match g.getNode idx with
  | none => (g, [], none)
  | some conv =>
    if !convCandidate compat conv then (g, [], none)
    else
      match conv.outputEdges with
      | [nextIdx] =>
        match g.getNode nextIdx with
        | none => (g, [], none)
        | some mul =>
          if !mulCandidate g conv mul then (g, [], none)
          else
            match wLookup g conv, sLookup g mul with
            | some wp, some sp =>
              if !shapeDtypeGate (some wp) (some sp) then (g, [], none)
              else
                match biasCheck g conv sp with
                | .skip => (g, [], none)
                | .fail => (g, [], some .internalFail)
                | .noBias => doRewrite g conv mul nextIdx wp sp .noBias
                | .ok bp => doRewrite g conv mul nextIdx wp sp (.ok bp)
            | _, _ => (g, [], none)
      | _ => (g, [], none)

/-- The traversal of `ConvMulFusion::ApplyImpl` over a list of arena
indices, threading the graph and accumulating the deferred-removal list;
an error from a step propagates immediately, abandoning the remaining
indices and the accumulated removal list's commit. -/
def traverseFrom (compat : List String) :
    List Nat → Graph → List Nat → Graph × List Nat × Option Err
  | [], g, removed => (g, removed, none)
  | i :: rest, g, removed =>
    match step compat g i with
    | (g', δ, none) => traverseFrom compat rest g' (removed ++ δ)
    | (g', _, some e) => (g', removed, some e)

/-- The full traversal: every arena slot of the input graph, in index
order (the enumeration the C++ range-for performs, with vacant slots
skipped inside `step`). -/
def traverse (compat : List String) (g : Graph) : Graph × List Nat × Option Err :=
  traverseFrom compat (List.range g.nodes.length) g []

/-- The deferred-removal commit: vacate every recorded arena slot. -/
def removeNodes (g : Graph) (l : List Nat) : Graph :=
  l.foldl Graph.removeNode g

/-- Result of one pass invocation: the graph (as mutated in place, also on
the error path), the caller's in/out `modified` flag, and the status. -/
structure ApplyResult where
  graph : Graph
  modified : Bool
  status : Option Err
deriving DecidableEq, Repr

/-- `ConvMulFusion::ApplyImpl`: traverse all nodes, then commit the
batched removals and set `modified` when any removal occurred; on error
the removals are not committed and `modified` is left as passed in. -/
def applyImpl (compat : List String) (g : Graph) (modifiedIn : Bool) : ApplyResult :=
  match traverse compat g with
  | (g', removed, none) =>
    { graph := removeNodes g' removed
      modified := modifiedIn || !removed.isEmpty
      status := none }
  | (g', _, some e) =>
    { graph := g', modified := modifiedIn, status := some e }

/-- Modelled from the spec (§3): the producer of a value reference is the
live node whose outputs contain it, found by ascending arena index. -/
def findProducer (nodes : List (Option Node)) (d : String) : Option Nat :=
  (List.range nodes.length).find? (fun j =>
    match nodes.getD j none with
    | some p => p.outputDefs.contains d
    | none => false)

/-- Modelled from the spec (§3): edges are derived from value-reference
sharing; `resolve` rebuilds every live node's recorded producer/consumer
edge indices from the current input/output defs (the reconciliation the
graph performs between pass invocations). -/
def Graph.resolve (g : Graph) : Graph :=
  { g with nodes := g.nodes.map (Option.map (fun n =>
    { n with
      inputEdges := n.inputDefs.filterMap (findProducer g.nodes)
      outputEdges := (List.range g.nodes.length).flatMap (fun j =>
        match g.nodes.getD j none with
        | some c => c.inputDefs.filterMap (fun d =>
            if n.outputDefs.contains d then some j else none)
        | none => []) })) }

/-- Does the traversal iteration at `idx` leave the graph untouched?
A qualifying pending match is exactly an iteration that is not a no-op
(it rewrites, or aborts on a corrupt bias). -/
def stepIsNoOp (compat : List String) (g : Graph) (idx : Nat) : Bool :=
  decide (step compat g idx = (g, ([], none)))

/-- No anchor of `g` has a qualifying single-consumer Mul (nor a
corrupt-bias match): every traversal iteration is a no-op. -/
def noPendingMatch (compat : List String) (g : Graph) : Bool :=
  (List.range g.nodes.length).all (stepIsNoOp compat g)

/-! ### Concrete graphs used in witnesses and counterexamples -/

def cpu : String := "cpu"

/-- Anchor of the spec's §8 concrete scenario: `Conv` with data, weight
and bias inputs, one output consumed by the follow-on at index 1. -/
def convA : Node := ⟨"Conv", 1, "", cpu, ["X", "W", "B"], ["co"], [], [1]⟩

/-- Follow-on `Mul` of the concrete scenario, scale on its second input,
its output consumed by the node at index 2. -/
def mulA : Node := ⟨"Mul", 7, "", cpu, ["co", "S"], ["mo"], [0], [2]⟩

/-- Downstream consumer of the follow-on's output. -/
def reluA : Node := ⟨"Relu", 6, "", cpu, ["mo"], ["Y"], [1], []⟩

/-- The downstream consumer after rewiring onto the anchor's output. -/
def reluA' : Node := ⟨"Relu", 6, "", cpu, ["co"], ["Y"], [1], []⟩

def wA : TensorProto := ⟨"W", 1, [2, 3, 1, 1], [1, 2, 3, 4, 5, 6]⟩
def bA : TensorProto := ⟨"B", 1, [2], [10, 20]⟩

/-- Scale of shape `[2,1,1]`: rank = weight rank − 1, leading dimension 2,
trailing dimensions 1. -/
def sA : TensorProto := ⟨"S", 1, [2, 1, 1], [2, 5]⟩

/-- The scale exactly as claim C1 words it: rank 1, length 2. -/
def sArank1 : TensorProto := ⟨"S", 1, [2], [2, 5]⟩

def wAfused : TensorProto := ⟨"W", 1, [2, 3, 1, 1], [2, 4, 6, 20, 25, 30]⟩
def bAfused : TensorProto := ⟨"B", 1, [2], [20, 100]⟩

/-- The §8 concrete scenario with the broadcast-shaped `[2,1,1]` scale. -/
def exC1 : Graph :=
  ⟨[some convA, some mulA, some reluA],
   [("W", some wA), ("B", some bA), ("S", some sA)], ["Y"]⟩

/-- The scenario with the scale shaped exactly as claim C1 states it
(rank 1, length 2). -/
def exC1rank1 : Graph :=
  ⟨[some convA, some mulA, some reluA],
   [("W", some wA), ("B", some bA), ("S", some sArank1)], ["Y"]⟩

/-- Expected result of fusing `exC1`: fused weight and bias installed
under their names, the `Mul` slot vacated, the consumer rewired. -/
def exC1fused : Graph :=
  ⟨[some convA, none, some reluA'],
   [("S", some sA), ("W", some wAfused), ("B", some bAfused)], ["Y"]⟩

/-- Bias-declaring anchor whose bias name has no entry at all in the
initializer store. -/
def exBiasMissing : Graph :=
  ⟨[some convA, some mulA, some reluA],
   [("W", some wA), ("S", some sA)], ["Y"]⟩

/-- Bias-declaring anchor whose bias entry exists but holds a null
constant (the corrupt-store case). -/
def exBiasNull : Graph :=
  ⟨[some convA, some mulA, some reluA],
   [("W", some wA), ("B", none), ("S", some sA)], ["Y"]⟩

/-- Two-input `Conv` anchor (no bias), output consumed at index 1. -/
def conv2in : Node := ⟨"Conv", 1, "", cpu, ["X", "W"], ["co"], [], [1]⟩

def wS : TensorProto := ⟨"W", 1, [1, 1, 1, 1], [1]⟩
def sS : TensorProto := ⟨"S", 1, [], [2]⟩

/-- Follow-on `Mul` whose output is itself a declared graph output. -/
def mulMO : Node := ⟨"Mul", 7, "", cpu, ["co", "S"], ["mo"], [0], []⟩

/-- Graph in which the follow-on's output is a declared graph output. -/
def exMulIsOutput : Graph :=
  ⟨[some conv2in, some mulMO], [("W", some wS), ("S", some sS)], ["mo"]⟩

/-- Follow-on `Mul` whose recorded consumer index 2 is a vacant slot. -/
def mulDead : Node := ⟨"Mul", 7, "", cpu, ["co", "S"], ["mo"], [0], [2]⟩

/-- Matched pair whose follow-on records a consumer at index 2, but the
arena slot 2 is vacant: the rewiring loop cannot resolve it. -/
def exDeadConsumer : Graph :=
  ⟨[some conv2in, some mulDead, none], [("W", some wS), ("S", some sS)], ["Y"]⟩

/-- Minimal fusable chain: bias-less `Conv` → scalar `Mul` → `Relu`. -/
def mulSm : Node := ⟨"Mul", 7, "", cpu, ["co", "S"], ["mo"], [0], [2]⟩
def reluSm : Node := ⟨"Relu", 6, "", cpu, ["mo"], ["Y"], [1], []⟩
def exSimple : Graph :=
  ⟨[some conv2in, some mulSm, some reluSm],
   [("W", some wS), ("S", some sS)], ["Y"]⟩

/-- The graph state right after the traversal of `exSimple`, before the
deferred removal is committed: the `Mul` is still live. -/
def reluSm' : Node := ⟨"Relu", 6, "", cpu, ["co"], ["Y"], [1], []⟩
def wSfused : TensorProto := ⟨"W", 1, [1, 1, 1, 1], [2]⟩
def exSimpleTG : Graph :=
  ⟨[some conv2in, some mulSm, some reluSm'],
   [("S", some sS), ("W", some wSfused)], ["Y"]⟩

/-- `exSimple` after one full pass invocation and the inter-run edge
reconciliation: fused, the `Mul` removed, edges re-derived from defs. -/
def conv2inF : Node := ⟨"Conv", 1, "", cpu, ["X", "W"], ["co"], [], [2]⟩
def reluSmF : Node := ⟨"Relu", 6, "", cpu, ["co"], ["Y"], [0], []⟩
def exC8Fused : Graph :=
  ⟨[some conv2inF, none, some reluSmF],
   [("S", some sS), ("W", some wSfused)], ["Y"]⟩

/-- Chained scales: `Conv` → `Mul`(×2) → `Mul`(×3) → `Relu`.  The first
pass run can only fuse the first `Mul`; fusing it makes the second `Mul`
the anchor's new single consumer. -/
def chM1 : Node := ⟨"Mul", 7, "", cpu, ["co", "S1"], ["m1"], [0], [2]⟩
def chM2 : Node := ⟨"Mul", 7, "", cpu, ["m1", "S2"], ["m2"], [1], [3]⟩
def chRelu : Node := ⟨"Relu", 6, "", cpu, ["m2"], ["Y"], [2], []⟩
def s1 : TensorProto := ⟨"S1", 1, [], [2]⟩
def s2 : TensorProto := ⟨"S2", 1, [], [3]⟩
def exChain : Graph :=
  ⟨[some conv2in, some chM1, some chM2, some chRelu],
   [("W", some wS), ("S1", some s1), ("S2", some s2)], ["Y"]⟩

/-! ### Basic lemmas about the graph primitives -/

theorem getNode_of_nodes_eq {g h : Graph} (hn : g.nodes = h.nodes) (i : Nat) :
    g.getNode i = h.getNode i := by
  simp [Graph.getNode, hn]

theorem isLive_of_nodes_eq {g h : Graph} (hn : g.nodes = h.nodes) (i : Nat) :
    g.isLive i = h.isLive i := by
  simp [Graph.isLive, getNode_of_nodes_eq hn]

theorem getNode_lt_length {g : Graph} {i : Nat} {n : Node}
    (h : g.getNode i = some n) : i < g.nodes.length := by
  by_contra hge
  have : g.nodes[i]? = none := List.getElem?_eq_none (Nat.le_of_not_lt hge)
  simp [Graph.getNode, this] at h

theorem getNode_updateNode_ne {g : Graph} {i j : Nat} (n : Node) (h : i ≠ j) :
    (g.updateNode i n).getNode j = g.getNode j := by
  simp [Graph.getNode, Graph.updateNode, List.getElem?_set_ne h]

theorem getNode_updateNode_self {g : Graph} {i : Nat} {m : Node} (n : Node)
    (h : g.getNode i = some m) :
    (g.updateNode i n).getNode i = some n := by
  simp [Graph.getNode, Graph.updateNode,
    List.getElem?_set_self (getNode_lt_length h)]

theorem isLive_updateNode {g : Graph} {i : Nat} {m : Node} (n : Node)
    (h : g.getNode i = some m) (j : Nat) :
    (g.updateNode i n).isLive j = g.isLive j := by
  by_cases hij : i = j
  · subst hij
    simp [Graph.isLive, getNode_updateNode_self n h, h]
  · simp [Graph.isLive, getNode_updateNode_ne n hij]

theorem getNode_updateNode_dead {g : Graph} {i j : Nat} {m : Node} (n : Node)
    (hi : g.getNode i = some m) (hj : g.getNode j = none) :
    (g.updateNode i n).getNode j = none := by
  have hij : i ≠ j := fun h => by subst h; rw [hi] at hj; exact Option.noConfusion hj
  rw [getNode_updateNode_ne n hij]; exact hj

theorem isLive_removeNode (g : Graph) (a i : Nat) :
    (g.removeNode a).isLive i = (g.isLive i && !(i == a)) := by
  by_cases hia : i = a
  · subst hia
    by_cases hlt : i < g.nodes.length
    · simp [Graph.isLive, Graph.getNode, Graph.removeNode,
        List.getElem?_set_self hlt]
    · have : g.nodes[i]? = none := List.getElem?_eq_none (Nat.le_of_not_lt hlt)
      simp [Graph.isLive, Graph.getNode, Graph.removeNode, this,
        List.getElem?_set, hlt]
  · simp [Graph.isLive, Graph.getNode, Graph.removeNode,
      List.getElem?_set_ne (fun h => hia h.symm), hia]

theorem isLive_removeNodes (l : List Nat) (g : Graph) (i : Nat) :
    (removeNodes g l).isLive i = (g.isLive i && !(decide (i ∈ l))) := by
  induction l generalizing g with
  | nil => simp [removeNodes]
  | cons a l ih =>
    have h1 : removeNodes g (a :: l) = removeNodes (g.removeNode a) l := rfl
    rw [h1, ih, isLive_removeNode]
    by_cases hia : i = a <;> by_cases hil : i ∈ l <;>
      simp [hia, hil, Bool.and_assoc]

/-! ### Lemmas about the rewiring loop -/

theorem rewireLoop_nodes_length (edges : List Nat) (g : Graph) (a b : String) :
    (rewireLoop g edges a b).1.nodes.length = g.nodes.length := by
  induction edges generalizing g with
  | nil => rfl
  | cons j rest ih =>
    simp only [rewireLoop]
    cases hj : g.getNode j with
    | none => rfl
    | some out => simp [ih, Graph.updateNode]

theorem rewireLoop_isLive (edges : List Nat) (g : Graph) (a b : String)
    (i : Nat) : (rewireLoop g edges a b).1.isLive i = g.isLive i := by
  induction edges generalizing g with
  | nil => rfl
  | cons j rest ih =>
    simp only [rewireLoop]
    cases hj : g.getNode j with
    | none => rfl
    | some out => rw [ih]; exact isLive_updateNode _ hj i

theorem rewireLoop_initializers (edges : List Nat) (g : Graph) (a b : String) :
    (rewireLoop g edges a b).1.initializers = g.initializers := by
  induction edges generalizing g with
  | nil => rfl
  | cons j rest ih =>
    simp only [rewireLoop]
    cases hj : g.getNode j with
    | none => rfl
    | some out => rw [ih]; rfl

theorem rewireLoop_graphOutputs (edges : List Nat) (g : Graph) (a b : String) :
    (rewireLoop g edges a b).1.graphOutputs = g.graphOutputs := by
  induction edges generalizing g with
  | nil => rfl
  | cons j rest ih =>
    simp only [rewireLoop]
    cases hj : g.getNode j with
    | none => rfl
    | some out => rw [ih]; rfl

theorem rewireLoop_error_of_dead (edges : List Nat) {j : Nat} (a b : String) :
    ∀ g : Graph, j ∈ edges → g.getNode j = none →
    (rewireLoop g edges a b).2 = some Err.invalidArgument := by
  induction edges with
  | nil => intro g hmem _; cases hmem
  | cons k rest ih =>
    intro g hmem hdead
    simp only [rewireLoop]
    cases hk : g.getNode k with
    | none => rfl
    | some out =>
      rcases List.mem_cons.mp hmem with hjk | hjr
      · subst hjk; rw [hk] at hdead; exact Option.noConfusion hdead
      · exact ih _ hjr (getNode_updateNode_dead _ hk hdead)

/-! ### Lemmas about one traversal iteration -/

theorem rewriteStore_nodes (g : Graph) (conv : Node) (wp sp : TensorProto)
    (bc : BiasCheck) : (rewriteStore g conv wp sp bc).nodes = g.nodes := by
  cases bc <;> rfl

theorem rewriteStore_graphOutputs (g : Graph) (conv : Node)
    (wp sp : TensorProto) (bc : BiasCheck) :
    (rewriteStore g conv wp sp bc).graphOutputs = g.graphOutputs := by
  cases bc <;> rfl

theorem doRewrite_isLive (g : Graph) (conv mul : Node) (nextIdx : Nat)
    (wp sp : TensorProto) (bc : BiasCheck) (i : Nat) :
    (doRewrite g conv mul nextIdx wp sp bc).1.isLive i = g.isLive i := by
  unfold doRewrite
  rcases hr : rewireLoop (rewriteStore g conv wp sp bc) mul.outputEdges
      (mul.outputDefs.getD 0 "") (conv.outputDefs.getD 0 "") with ⟨g3, st⟩
  have h3 : g3.isLive i = g.isLive i := by
    have hh := rewireLoop_isLive mul.outputEdges (rewriteStore g conv wp sp bc)
      (mul.outputDefs.getD 0 "") (conv.outputDefs.getD 0 "") i
    rw [hr] at hh
    rw [hh]
    exact isLive_of_nodes_eq (rewriteStore_nodes g conv wp sp bc) i
  cases st <;> simp [hr, h3]

theorem step_isLive (compat : List String) (g : Graph) (idx : Nat) (i : Nat) :
    (step compat g idx).1.isLive i = g.isLive i := by
  unfold step
  cases h1 : g.getNode idx with
  | none => rfl
  | some conv =>
    cases hc : convCandidate compat conv
    · simp [hc]
    · match he : conv.outputEdges with
      | [] => simp [hc, he]
      | _ :: _ :: _ => simp [hc, he]
      | [nextIdx] =>
        cases h2 : g.getNode nextIdx with
        | none => simp [hc, he, h2]
        | some mul =>
          cases hm : mulCandidate g conv mul
          · simp [hc, he, h2, hm]
          · cases hw : wLookup g conv with
            | none => simp [hc, he, h2, hm, hw]
            | some wp =>
              cases hs : sLookup g mul with
              | none => simp [hc, he, h2, hm, hw, hs]
              | some sp =>
                cases hg : shapeDtypeGate (some wp) (some sp)
                · simp [hc, he, h2, hm, hw, hs, hg]
                · cases hb : biasCheck g conv sp with
                  | skip => simp [hc, he, h2, hm, hw, hs, hg, hb]
                  | fail => simp [hc, he, h2, hm, hw, hs, hg, hb]
                  | noBias =>
                    simp [hc, he, h2, hm, hw, hs, hg, hb, doRewrite_isLive]
                  | ok bp =>
                    simp [hc, he, h2, hm, hw, hs, hg, hb, doRewrite_isLive]

/-- Reduction of `step` at a fully matched anchor: the iteration is
decided by the bias branch. -/
theorem step_matched {compat : List String} {g : Graph} {idx nextIdx : Nat}
    {conv mul : Node} {wp sp : TensorProto}
    (h1 : g.getNode idx = some conv)
    (hc : convCandidate compat conv = true)
    (he : conv.outputEdges = [nextIdx])
    (h2 : g.getNode nextIdx = some mul)
    (hm : mulCandidate g conv mul = true)
    (hw : wLookup g conv = some wp)
    (hs : sLookup g mul = some sp)
    (hg : shapeDtypeGate (some wp) (some sp) = true) :
    step compat g idx =
      match biasCheck g conv sp with
      | .skip => (g, [], none)
      | .fail => (g, [], some .internalFail)
      | .noBias => doRewrite g conv mul nextIdx wp sp .noBias
      | .ok bp => doRewrite g conv mul nextIdx wp sp (.ok bp) := by
  unfold step
  simp [h1, hc, he, h2, hm, hw, hs, hg]

theorem step_id_of_not_conv {compat : List String} {g : Graph} {idx : Nat}
    {conv : Node} (h1 : g.getNode idx = some conv)
    (hc : convCandidate compat conv = false) :
    step compat g idx = (g, [], none) := by
  unfold step
  simp [h1, hc]

theorem step_id_of_edges {compat : List String} {g : Graph} {idx : Nat}
    {conv : Node} (h1 : g.getNode idx = some conv)
    (he : conv.outputEdges.length ≠ 1) :
    step compat g idx = (g, [], none) := by
  unfold step
  cases hc : convCandidate compat conv
  · simp [h1, hc]
  · match hoe : conv.outputEdges with
    | [] => simp [h1, hc, hoe]
    | [j] => rw [hoe] at he; simp at he
    | _ :: _ :: _ => simp [h1, hc, hoe]

theorem step_id_of_not_mul {compat : List String} {g : Graph}
    {idx nextIdx : Nat} {conv mul : Node} (h1 : g.getNode idx = some conv)
    (he : conv.outputEdges = [nextIdx]) (h2 : g.getNode nextIdx = some mul)
    (hm : mulCandidate g conv mul = false) :
    step compat g idx = (g, [], none) := by
  unfold step
  cases hc : convCandidate compat conv
  · simp [h1, hc]
  · simp [h1, hc, he, h2, hm]

theorem step_id_of_gate_false {compat : List String} {g : Graph}
    {idx nextIdx : Nat} {conv mul : Node} (h1 : g.getNode idx = some conv)
    (he : conv.outputEdges = [nextIdx]) (h2 : g.getNode nextIdx = some mul)
    (hg : shapeDtypeGate (wLookup g conv) (sLookup g mul) = false) :
    step compat g idx = (g, [], none) := by
  unfold step
  cases hc : convCandidate compat conv
  · simp [h1, hc]
  · cases hm : mulCandidate g conv mul
    · simp [h1, hc, he, h2, hm]
    · cases hw : wLookup g conv with
      | none => simp [h1, hc, he, h2, hm, hw]
      | some wp =>
        cases hs : sLookup g mul with
        | none => simp [h1, hc, he, h2, hm, hw, hs]
        | some sp =>
          rw [hw, hs] at hg
          simp [h1, hc, he, h2, hm, hw, hs, hg]

/-! ### Lemmas about the initializer store -/

theorem find?_filter_of_imp {α : Type} (l : List α) (p q : α → Bool)
    (h : ∀ x, p x = true → q x = true) :
    (l.filter q).find? p = l.find? p := by
  induction l with
  | nil => rfl
  | cons a l ih =>
    cases hq : q a
    · have hp : p a = false := by
        cases hpa : p a
        · rfl
        · rw [h a hpa] at hq; exact Bool.noConfusion hq
      rw [List.filter_cons_of_neg (by simp [hq]),
        List.find?_cons_of_neg l (by simp [hp]), ih]
    · rw [List.filter_cons_of_pos hq]
      cases hpa : p a
      · rw [List.find?_cons_of_neg _ (by simp [hpa]),
          List.find?_cons_of_neg l (by simp [hpa]), ih]
      · rw [List.find?_cons_of_pos _ hpa, List.find?_cons_of_pos l hpa]

/-- Replacing a constant under its own name makes it the stored constant
for that name (`replace_initializer` installs under the same name). -/
theorem getInit_replace_self (g : Graph) (n : String) (t : TensorProto)
    (ht : t.name = n) :
    ((g.removeInitializedTensor n).addInitializedTensor t
      ).getInitializedTensor n = some (some t) := by
  show ((g.initializers.filter (fun p => p.1 != n) ++ [(t.name, some t)]
    ).find? (fun p => p.1 == n)).map (·.2) = some (some t)
  rw [List.find?_append]
  have h1 : (g.initializers.filter (fun p => p.1 != n)
      ).find? (fun p => p.1 == n) = none := by
    rw [List.find?_eq_none]
    intro x hx hpx
    have hmem := List.mem_filter.mp hx
    have hx1 : x.1 = n := by simpa using hpx
    simp [hx1] at hmem
  rw [h1, ht]
  simp

/-- Replacing a constant under one name leaves lookups of a different
name unchanged. -/
theorem getInit_replace_other (g : Graph) (n n' : String) (t : TensorProto)
    (ht : t.name = n') (hne : n ≠ n') :
    ((g.removeInitializedTensor n').addInitializedTensor t
      ).getInitializedTensor n = g.getInitializedTensor n := by
  show ((g.initializers.filter (fun p => p.1 != n') ++ [(t.name, some t)]
    ).find? (fun p => p.1 == n)).map (·.2)
    = (g.initializers.find? (fun p => p.1 == n)).map (·.2)
  rw [List.find?_append]
  rw [find?_filter_of_imp _ _ _ (fun x hx => by
    have hx1 : x.1 = n := by simpa using hx
    simp [hx1, hne])]
  cases hf : g.initializers.find? (fun p => p.1 == n) with
  | some v => simp
  | none =>
    have hne2 : ¬(n' = n) := fun h => hne h.symm
    simp [ht, hne2]


theorem step_id_of_next_dead {compat : List String} {g : Graph}
    {idx nextIdx : Nat} {conv : Node} (h1 : g.getNode idx = some conv)
    (he : conv.outputEdges = [nextIdx]) (h2 : g.getNode nextIdx = none) :
    step compat g idx = (g, [], none) := by
  unfold step
  cases hc : convCandidate compat conv
  · simp [h1, hc]
  · simp [h1, hc, he, h2]

/-- A recorded consumer of the follow-on that resolves to a vacant arena
slot makes the commit tail abort with `INVALID_ARGUMENT`, recording
nothing for removal. -/
theorem doRewrite_error_of_dead {g : Graph} {conv mul : Node}
    {nextIdx j : Nat} {wp sp : TensorProto} {bc : BiasCheck}
    (hj : j ∈ mul.outputEdges) (hdead : g.getNode j = none) :
    (doRewrite g conv mul nextIdx wp sp bc).2 = ([], some Err.invalidArgument) := by
  unfold doRewrite
  have hdead2 : (rewriteStore g conv wp sp bc).getNode j = none := by
    rw [getNode_of_nodes_eq (rewriteStore_nodes g conv wp sp bc) j]
    exact hdead
  have herr := rewireLoop_error_of_dead mul.outputEdges
    (mul.outputDefs.getD 0 "") (conv.outputDefs.getD 0 "")
    (rewriteStore g conv wp sp bc) hj hdead2
  rcases hr : rewireLoop (rewriteStore g conv wp sp bc) mul.outputEdges
      (mul.outputDefs.getD 0 "") (conv.outputDefs.getD 0 "") with ⟨g3, st⟩
  rw [hr] at herr
  simp only at herr
  subst herr
  simp [hr]

/-- Inversion of a successful bias branch. -/
theorem biasCheck_ok_inversion {g : Graph} {conv : Node}
    {sp bp : TensorProto} (hb : biasCheck g conv sp = .ok bp) :
    conv.inputDefs.length = 3 ∧
    g.getInitializedTensor (conv.inputDefs.getD 2 "") = some (some bp) ∧
    (isSupportedDataType (some bp) && bp.dtype == sp.dtype &&
     bp.dims.length == 1 &&
     (sp.dims.length == 0 || bp.dims.getD 0 0 == sp.dims.getD 0 0)) = true := by
  unfold biasCheck at hb
  split at hb
  · exact absurd hb (by simp)
  next h3 =>
    split at hb
    next hlk => exact absurd hb (by simp)
    next hlk => exact absurd hb (by simp)
    next b hlk =>
      split at hb
      next hgate =>
        have hbp : b = bp := by injection hb
        subst hbp
        exact ⟨not_ne_iff.mp h3, hlk, hgate⟩
      next hgate => exact absurd hb (by simp)

/-- After the commit tail of a matched bias-carrying anchor, the bias
name resolves to the fused bias. -/
theorem doRewrite_getInit_bias (g : Graph) (conv mul : Node) (nextIdx : Nat)
    (wp sp bp : TensorProto) (hbn : bp.name = conv.inputDefs.getD 2 "") :
    (doRewrite g conv mul nextIdx wp sp (.ok bp)
      ).1.getInitializedTensor (conv.inputDefs.getD 2 "")
      = some (some (fusedBias bp sp)) := by
  unfold doRewrite
  rcases hr : rewireLoop (rewriteStore g conv wp sp (.ok bp)) mul.outputEdges
      (mul.outputDefs.getD 0 "") (conv.outputDefs.getD 0 "") with ⟨g3, st⟩
  have hinit : g3.initializers = (rewriteStore g conv wp sp (.ok bp)).initializers := by
    have hh := rewireLoop_initializers mul.outputEdges
      (rewriteStore g conv wp sp (.ok bp))
      (mul.outputDefs.getD 0 "") (conv.outputDefs.getD 0 "")
    rw [hr] at hh; exact hh
  have hstore : (rewriteStore g conv wp sp (.ok bp)
      ).getInitializedTensor (conv.inputDefs.getD 2 "")
      = some (some (fusedBias bp sp)) :=
    getInit_replace_self _ _ _ hbn
  have hlook : g3.getInitializedTensor (conv.inputDefs.getD 2 "")
      = some (some (fusedBias bp sp)) := by
    unfold Graph.getInitializedTensor at hstore ⊢
    rw [hinit]; exact hstore
  cases st
  · simp only [hr]; exact hlook
  · simp only [hr]; exact hlook

/-- After the commit tail of a matched bias-carrying anchor, the weight
name resolves to the fused weight (the later bias replacement does not
disturb it when the two names differ). -/
theorem doRewrite_getInit_weight (g : Graph) (conv mul : Node) (nextIdx : Nat)
    (wp sp bp : TensorProto) (hwn : wp.name = conv.inputDefs.getD 1 "")
    (hbn : bp.name = conv.inputDefs.getD 2 "")
    (hnames : conv.inputDefs.getD 1 "" ≠ conv.inputDefs.getD 2 "") :
    (doRewrite g conv mul nextIdx wp sp (.ok bp)
      ).1.getInitializedTensor (conv.inputDefs.getD 1 "")
      = some (some (fusedWeight wp sp)) := by
  unfold doRewrite
  rcases hr : rewireLoop (rewriteStore g conv wp sp (.ok bp)) mul.outputEdges
      (mul.outputDefs.getD 0 "") (conv.outputDefs.getD 0 "") with ⟨g3, st⟩
  have hinit : g3.initializers = (rewriteStore g conv wp sp (.ok bp)).initializers := by
    have hh := rewireLoop_initializers mul.outputEdges
      (rewriteStore g conv wp sp (.ok bp))
      (mul.outputDefs.getD 0 "") (conv.outputDefs.getD 0 "")
    rw [hr] at hh; exact hh
  have hstep1 : ((g.removeInitializedTensor (conv.inputDefs.getD 1 "")
      ).addInitializedTensor (fusedWeight wp sp)
      ).getInitializedTensor (conv.inputDefs.getD 1 "")
      = some (some (fusedWeight wp sp)) := by
    apply getInit_replace_self
    show (fusedWeight wp sp).name = conv.inputDefs.getD 1 ""
    exact hwn
  have hstore : (rewriteStore g conv wp sp (.ok bp)
      ).getInitializedTensor (conv.inputDefs.getD 1 "")
      = some (some (fusedWeight wp sp)) := by
    show (((((g.removeInitializedTensor (conv.inputDefs.getD 1 "")
      ).addInitializedTensor (fusedWeight wp sp)
      ).removeInitializedTensor (conv.inputDefs.getD 2 "")
      ).addInitializedTensor (fusedBias bp sp))
      ).getInitializedTensor (conv.inputDefs.getD 1 "")
      = some (some (fusedWeight wp sp))
    rw [getInit_replace_other _ _ _ (fusedBias bp sp)
      (show (fusedBias bp sp).name = conv.inputDefs.getD 2 "" from hbn) hnames]
    exact hstep1
  have hlook : g3.getInitializedTensor (conv.inputDefs.getD 1 "")
      = some (some (fusedWeight wp sp)) := by
    unfold Graph.getInitializedTensor at hstore ⊢
    rw [hinit]; exact hstore
  cases st
  · simp only [hr]; exact hlook
  · simp only [hr]; exact hlook

/-- After the commit tail of a matched bias-less anchor, the weight name
resolves to the fused weight. -/
theorem doRewrite_getInit_weight_noBias (g : Graph) (conv mul : Node)
    (nextIdx : Nat) (wp sp : TensorProto)
    (hwn : wp.name = conv.inputDefs.getD 1 "") :
    (doRewrite g conv mul nextIdx wp sp .noBias
      ).1.getInitializedTensor (conv.inputDefs.getD 1 "")
      = some (some (fusedWeight wp sp)) := by
  unfold doRewrite
  rcases hr : rewireLoop (rewriteStore g conv wp sp .noBias) mul.outputEdges
      (mul.outputDefs.getD 0 "") (conv.outputDefs.getD 0 "") with ⟨g3, st⟩
  have hinit : g3.initializers = (rewriteStore g conv wp sp .noBias).initializers := by
    have hh := rewireLoop_initializers mul.outputEdges
      (rewriteStore g conv wp sp .noBias)
      (mul.outputDefs.getD 0 "") (conv.outputDefs.getD 0 "")
    rw [hr] at hh; exact hh
  have hstore : (rewriteStore g conv wp sp .noBias
      ).getInitializedTensor (conv.inputDefs.getD 1 "")
      = some (some (fusedWeight wp sp)) := by
    show ((g.removeInitializedTensor (conv.inputDefs.getD 1 "")
      ).addInitializedTensor (fusedWeight wp sp)
      ).getInitializedTensor (conv.inputDefs.getD 1 "")
      = some (some (fusedWeight wp sp))
    apply getInit_replace_self
    show (fusedWeight wp sp).name = conv.inputDefs.getD 1 ""
    exact hwn
  have hlook : g3.getInitializedTensor (conv.inputDefs.getD 1 "")
      = some (some (fusedWeight wp sp)) := by
    unfold Graph.getInitializedTensor at hstore ⊢
    rw [hinit]; exact hstore
  cases st
  · simp only [hr]; exact hlook
  · simp only [hr]; exact hlook

/-- A dimension list of all-ones has product one. -/
theorem prod_eq_one_of_all_one {l : List Nat}
    (h : l.all (fun d => d == 1) = true) : l.prod = 1 := by
  induction l with
  | nil => rfl
  | cons a t ih =>
    rw [List.all_cons, Bool.and_eq_true] at h
    rcases h with ⟨ha, ht⟩
    have ha1 : a = 1 := by simpa using ha
    rw [List.prod_cons, ha1, ih ht, Nat.one_mul]

/-! ### Lemmas about the traversal -/

theorem traverseFrom_isLive (compat : List String) (l : List Nat) (i : Nat) :
    ∀ (g : Graph) (removed : List Nat),
      (traverseFrom compat l g removed).1.isLive i = g.isLive i := by
  induction l with
  | nil => intro g removed; rfl
  | cons j rest ih =>
    intro g removed
    have hstep := step_isLive compat g j i
    rcases hst : step compat g j with ⟨g', δ, st⟩
    rw [hst] at hstep
    simp only [traverseFrom, hst]
    cases st
    · rw [ih g' (removed ++ δ)]; exact hstep
    · exact hstep

theorem traverseFrom_id (compat : List String) (l : List Nat) :
    ∀ (g : Graph) (removed : List Nat),
      (∀ j ∈ l, step compat g j = (g, [], none)) →
      traverseFrom compat l g removed = (g, removed, none) := by
  induction l with
  | nil => intro g removed _; rfl
  | cons j rest ih =>
    intro g removed h
    have hj := h j (List.mem_cons_self j rest)
    simp only [traverseFrom, hj, List.append_nil]
    exact ih g removed (fun k hk => h k (List.mem_cons_of_mem j hk))

/-! ### The claims -/

/-- **C2.** For every matched Conv/Mul pair, a rewrite is performed only
when the weight and scale constants pass the dtype/shape gate (supported
dtypes equal to each other, weight rank ≥ 4, scale rank 0 or rank =
weight-rank − 1 with matching leading dimension and all later dimensions
equal to 1): whenever the gate fails — in particular for any scale
violating these conditions — the iteration leaves the graph, the
removal list and the status untouched, so no rewrite is triggered. -/
theorem claim_C2 (compat : List String) (g : Graph) (idx nextIdx : Nat)
    (conv mul : Node) (h1 : g.getNode idx = some conv)
    (he : conv.outputEdges = [nextIdx]) (h2 : g.getNode nextIdx = some mul)
    (hg : shapeDtypeGate (wLookup g conv) (sLookup g mul) = false) :
    step compat g idx = (g, [], none) :=
  step_id_of_gate_false h1 he h2 hg

/-- Witness for C2: the §8 scenario graph whose scale is rank 1 of length
2 (rank ≠ 0 and ≠ weight-rank − 1) is left untouched. -/
theorem claim_C2_witness :
    step [] exC1rank1 0 = (exC1rank1, [], none) :=
  claim_C2 [] exC1rank1 0 1 convA mulA rfl rfl rfl (by decide)

/-- **C4.** For every graph in which the follow-on Mul's output is a
declared graph output, or the Mul has more than one input edge, or the
Conv anchor has more than one output edge, the iteration at that anchor
leaves the graph byte-for-byte unchanged: no initializer replacement, no
rewiring, no removal recording. -/
theorem claim_C4 (compat : List String) (g : Graph) (idx : Nat) (conv : Node)
    (h1 : g.getNode idx = some conv)
    (hskip : conv.outputEdges.length ≠ 1 ∨
      ∀ nextIdx mul, conv.outputEdges = [nextIdx] →
        g.getNode nextIdx = some mul →
        g.isNodeOutputsInGraphOutputs mul = true ∨ mul.inputEdges.length ≠ 1) :
    step compat g idx = (g, [], none) := by
  rcases hskip with h | h
  · exact step_id_of_edges h1 h
  · match hoe : conv.outputEdges with
    | [] => exact step_id_of_edges h1 (by rw [hoe]; simp)
    | _ :: _ :: _ => exact step_id_of_edges h1 (by rw [hoe]; simp)
    | [nextIdx] =>
      cases h2 : g.getNode nextIdx with
      | none => exact step_id_of_next_dead h1 hoe h2
      | some mul =>
        rcases h nextIdx mul hoe h2 with hgo | hie
        · refine step_id_of_not_mul h1 hoe h2 ?_
          simp [mulCandidate, hgo]
        · refine step_id_of_not_mul h1 hoe h2 ?_
          have hbe : (mul.inputEdges.length == 1) = false := by
            simp [hie]
          simp [mulCandidate, hbe]

/-- Witness for C4: a matched pair whose Mul output is a declared graph
output is left untouched. -/
theorem claim_C4_witness :
    step [] exMulIsOutput 0 = (exMulIsOutput, [], none) := by
  apply claim_C4 [] exMulIsOutput 0 conv2in rfl
  refine Or.inr ?_
  intro nextIdx mul he h2
  have he2 : [1] = [nextIdx] := he
  have hn : (1 : Nat) = nextIdx := by injection he2
  subst hn
  have h22 : some mulMO = some mul := h2
  have hmm : mulMO = mul := by injection h22
  subst hmm
  left
  decide

/-- **C3 (amended).** For an anchor that declares a third (bias) input and
is otherwise fully matched: when the bias name has no entry in the
initializer store the iteration *skips* the anchor (no error, graph
untouched); the pass aborts with the internal-consistency error only when
the lookup succeeds but yields a null constant. -/
theorem claim_C3_amended (compat : List String) (g : Graph)
    (idx nextIdx : Nat) (conv mul : Node) (wp sp : TensorProto)
    (h1 : g.getNode idx = some conv)
    (hc : convCandidate compat conv = true)
    (he : conv.outputEdges = [nextIdx])
    (h2 : g.getNode nextIdx = some mul)
    (hm : mulCandidate g conv mul = true)
    (hw : wLookup g conv = some wp)
    (hs : sLookup g mul = some sp)
    (hg : shapeDtypeGate (some wp) (some sp) = true)
    (h3 : conv.inputDefs.length = 3) :
    (g.getInitializedTensor (conv.inputDefs.getD 2 "") = none →
      step compat g idx = (g, [], none)) ∧
    (g.getInitializedTensor (conv.inputDefs.getD 2 "") = some none →
      step compat g idx = (g, [], some Err.internalFail)) := by
  have hred := step_matched h1 hc he h2 hm hw hs hg
  constructor
  · intro hlk
    have hb : biasCheck g conv sp = .skip := by
      unfold biasCheck
      rw [if_neg (by rw [h3]; simp), hlk]
    rw [hred, hb]
  · intro hlk
    have hb : biasCheck g conv sp = .fail := by
      unfold biasCheck
      rw [if_neg (by rw [h3]; simp), hlk]
    rw [hred, hb]

/-- Counterexample to C3 as stated: a fully matched bias-declaring anchor
whose bias constant cannot be resolved from the store does not abort the
pass — the whole invocation returns OK with the graph unchanged and
`modified = false`. -/
theorem claim_C3_counterexample :
    applyImpl [] exBiasMissing false = ⟨exBiasMissing, false, none⟩ := by
  decide

/-- Witness for C3 (amended), both branches: the absent-entry graph is
skipped, the null-entry graph aborts with the internal error. -/
theorem claim_C3_amended_witness :
    step [] exBiasMissing 0 = (exBiasMissing, [], none) ∧
    step [] exBiasNull 0 = (exBiasNull, [], some Err.internalFail) :=
  ⟨(claim_C3_amended [] exBiasMissing 0 1 convA mulA wA sA rfl (by decide)
      rfl rfl (by decide) rfl rfl (by decide) rfl).1 rfl,
   (claim_C3_amended [] exBiasNull 0 1 convA mulA wA sA rfl (by decide)
      rfl rfl (by decide) rfl rfl (by decide) rfl).2 rfl⟩

/-- **C5.** For a matched anchor whose follow-on records a consumer index
that does not resolve in the arena, the iteration returns the
`INVALID_ARGUMENT` internal-consistency error, records nothing for
removal, and the error aborts the remaining traversal immediately,
returning the graph as already mutated (rewrites committed before the
failure point are not rolled back). -/
theorem claim_C5 (compat : List String) (g : Graph)
    (idx nextIdx j : Nat) (conv mul : Node) (wp sp : TensorProto)
    (h1 : g.getNode idx = some conv)
    (hc : convCandidate compat conv = true)
    (he : conv.outputEdges = [nextIdx])
    (h2 : g.getNode nextIdx = some mul)
    (hm : mulCandidate g conv mul = true)
    (hw : wLookup g conv = some wp)
    (hs : sLookup g mul = some sp)
    (hg : shapeDtypeGate (some wp) (some sp) = true)
    (hbc : biasCheck g conv sp = .noBias ∨ ∃ bp, biasCheck g conv sp = .ok bp)
    (hj : j ∈ mul.outputEdges) (hdead : g.getNode j = none) :
    (step compat g idx).2.2 = some Err.invalidArgument ∧
    (step compat g idx).2.1 = [] ∧
    ∀ (rest removed : List Nat),
      traverseFrom compat (idx :: rest) g removed
        = ((step compat g idx).1, removed, some Err.invalidArgument) := by
  have hred := step_matched h1 hc he h2 hm hw hs hg
  have h2nd : (step compat g idx).2 = ([], some Err.invalidArgument) := by
    rcases hbc with hb | ⟨bp, hb⟩
    · rw [hred, hb]; exact doRewrite_error_of_dead hj hdead
    · rw [hred, hb]; exact doRewrite_error_of_dead hj hdead
  refine ⟨?_, ?_, ?_⟩
  · show ((step compat g idx).2).2 = _
    rw [h2nd]
  · show ((step compat g idx).2).1 = _
    rw [h2nd]
  · intro rest removed
    rcases hst : step compat g idx with ⟨g', δ, st⟩
    have hds : (δ, st) = ([], some Err.invalidArgument) := by
      rw [← h2nd, hst]
    have hδ : δ = [] := congrArg Prod.fst hds
    have hstv : st = some Err.invalidArgument := congrArg Prod.snd hds
    subst hδ
    subst hstv
    simp [traverseFrom, hst]

/-- Witness for C5: the matched pair whose Mul records consumer index 2
over a vacant slot aborts with `INVALID_ARGUMENT`. -/
theorem claim_C5_witness :
    (step [] exDeadConsumer 0).2.2 = some Err.invalidArgument :=
  (claim_C5 [] exDeadConsumer 0 1 2 conv2in mulDead wS sS rfl (by decide)
    rfl rfl (by decide) rfl rfl (by decide) (Or.inl (by decide))
    (by decide) rfl).1

/-- **C6.** During a pass invocation no node is removed while the
traversal is in progress: the traversal phase preserves the liveness of
every arena slot (matched Muls are only recorded), the recorded removals
are committed only after the full traversal (a slot is live afterwards
exactly when it was live before and was not recorded), and the `modified`
flag is set exactly when some removal occurred. -/
theorem claim_C6 (compat : List String) (g : Graph) (m : Bool)
    (tg : Graph) (removed : List Nat)
    (ht : traverse compat g = (tg, removed, none)) :
    (∀ i, tg.isLive i = g.isLive i) ∧
    (∀ i, (applyImpl compat g m).graph.isLive i
      = (g.isLive i && !(decide (i ∈ removed)))) ∧
    (applyImpl compat g m).modified = (m || !removed.isEmpty) := by
  have hl : ∀ i, tg.isLive i = g.isLive i := by
    intro i
    have hh := traverseFrom_isLive compat (List.range g.nodes.length) i g []
    unfold traverse at ht
    rw [ht] at hh
    exact hh
  have happ : applyImpl compat g m =
      { graph := removeNodes tg removed
        modified := m || !removed.isEmpty
        status := none } := by
    unfold applyImpl
    rw [ht]
  refine ⟨hl, ?_, ?_⟩
  · intro i
    rw [happ]
    show (removeNodes tg removed).isLive i = _
    rw [isLive_removeNodes, hl]
  · rw [happ]

/-- Witness for C6 at the minimal fusable chain: the pass reports a
modification, and the matched Mul (index 1) is still live right after the
traversal phase. -/
theorem claim_C6_witness :
    (applyImpl [] exSimple false).modified
      = (false || !([1] : List Nat).isEmpty) ∧
    exSimpleTG.isLive 1 = exSimple.isLive 1 :=
  ⟨(claim_C6 [] exSimple false exSimpleTG [1] (by decide)).2.2,
   (claim_C6 [] exSimple false exSimpleTG [1] (by decide)).1 1⟩

/-- **C10.** Whenever the pass returns an error, no node queued for
removal is actually removed (every arena slot keeps its liveness,
including Muls recorded by earlier successfully rewritten anchors) and
the `modified` flag is returned exactly as passed in — even though
initializer replacements and input rewires already applied remain in the
returned graph. -/
theorem claim_C10 (compat : List String) (g : Graph) (m : Bool) (e : Err)
    (herr : (applyImpl compat g m).status = some e) :
    (applyImpl compat g m).modified = m ∧
    ∀ i, (applyImpl compat g m).graph.isLive i = g.isLive i := by
  rcases ht : traverse compat g with ⟨g', removed, st⟩
  have hl : ∀ i, g'.isLive i = g.isLive i := by
    intro i
    have hh := traverseFrom_isLive compat (List.range g.nodes.length) i g []
    unfold traverse at ht
    rw [ht] at hh
    exact hh
  cases st with
  | none =>
    have happ : applyImpl compat g m =
        { graph := removeNodes g' removed
          modified := m || !removed.isEmpty
          status := none } := by
      unfold applyImpl
      rw [ht]
    rw [happ] at herr
    exact absurd herr (by simp)
  | some e2 =>
    have happ : applyImpl compat g m =
        { graph := g', modified := m, status := some e2 } := by
      unfold applyImpl
      rw [ht]
    constructor
    · rw [happ]
    · intro i
      rw [happ]
      exact hl i

/-- Witness for C10: on the graph whose rewiring aborts, the pass leaves
`modified` false and the recorded Mul (index 1) still live. -/
theorem claim_C10_witness :
    (applyImpl [] exDeadConsumer false).modified = false ∧
    (applyImpl [] exDeadConsumer false).graph.isLive 1
      = exDeadConsumer.isLive 1 :=
  ⟨(claim_C10 [] exDeadConsumer false Err.invalidArgument (by decide)).1,
   (claim_C10 [] exDeadConsumer false Err.invalidArgument (by decide)).2 1⟩

/-- **C8 (amended).** Running the pass again reports `modified = false`
provided no anchor of the graph still has a qualifying single-consumer
Mul (every traversal iteration is a no-op): then the invocation returns
the graph unchanged with the incoming flag and no error.  The proviso is
necessary: fusing one Mul can make a second, chained Mul the anchor's new
single consumer, and the second run then modifies again (see the
counterexample). -/
theorem claim_C8_amended (compat : List String) (g : Graph) (m : Bool)
    (h : noPendingMatch compat g = true) :
    applyImpl compat g m = ⟨g, m, none⟩ := by
  have hsteps : ∀ j ∈ List.range g.nodes.length,
      step compat g j = (g, [], none) := by
    intro j hj
    exact of_decide_eq_true (List.all_eq_true.mp h j hj)
  have ht : traverse compat g = (g, [], none) :=
    traverseFrom_id compat (List.range g.nodes.length) g [] hsteps
  unfold applyImpl
  rw [ht]
  show ApplyResult.mk (removeNodes g []) (m || !([] : List Nat).isEmpty) none
    = ⟨g, m, none⟩
  simp [removeNodes]

/-- Counterexample to C8 as stated: on the chained-scales graph the first
run fuses (and removes) only the first Mul, and the second run — on the
fused graph with its consumer edges re-derived from the rewired value
references — reports `modified = true` again, because the anchor's new
single consumer is the second Mul. -/
theorem claim_C8_counterexample :
    (applyImpl [] exChain false).modified = true ∧
    (applyImpl [] exChain false).status = none ∧
    (applyImpl [] exChain false).graph.getNode 1 = none ∧
    (applyImpl [] ((applyImpl [] exChain false).graph.resolve) false).modified
      = true := by
  decide

/-- Witness for C8 (amended): the already-fused, re-resolved single-chain
graph has no pending match, and a second invocation returns it unchanged
with `modified = false`. -/
theorem claim_C8_amended_witness :
    applyImpl [] exC8Fused false = ⟨exC8Fused, false, none⟩ :=
  claim_C8_amended [] exC8Fused false (by decide)

/-- Counterexample to C1 as stated: with the scale shaped exactly as the
claim words it — rank 1, length 2 — the pass performs no fusion at all:
the graph is returned unchanged, the Mul is not removed and `modified`
is false (the gate requires scale rank 0 or weight-rank − 1 = 3). -/
theorem claim_C1_counterexample :
    applyImpl [] exC1rank1 false = ⟨exC1rank1, false, none⟩ := by
  decide

/-- **C1 (amended).** For the §8 scenario graph whose anchor Conv has the
4-D weight `[2,3,1,1]` = `[1,2,3,4,5,6]` and bias `[10,20]`, and whose
sole consumer Mul carries the constant scale with values `[2,5]` shaped
`[2,1,1]` (rank = weight-rank − 1, leading dimension matching), the pass
produces fused weight values `[2,4,6,20,25,30]`, fused bias values
`[20,100]`, removes the Mul node, and rewires the former consumer of the
Mul's output onto the Conv's output. -/
theorem claim_C1_amended :
    applyImpl [] exC1 false = ⟨exC1fused, true, none⟩ := by
  decide

/-- The broadcast branch of `scale_by_axis`: a size-1 scale multiplies
every element. -/
theorem scale_by_axis_broadcast (a b : Initializer) (axis : Nat)
    (h : b.size = 1) :
    (a.scale_by_axis b axis).data = a.data.map (· * b.data.headD 0) := by
  simp only [Initializer.scale_by_axis, h]
  simp

/-- The broadcast branch of `mul`: a size-1 operand multiplies every
element by its single scalar. -/
theorem mul_data_broadcast (a b : Initializer) (h : b.size = 1) :
    (a.mul b).data = a.data.map (· * b.data.headD 0) := by
  simp only [Initializer.mul, h]
  simp

/-- The elementwise branch of `mul`. -/
theorem mul_data_zipWith (a b : Initializer) (h : ¬b.size = 1) :
    (a.mul b).data = List.zipWith (· * ·) a.data b.data := by
  simp only [Initializer.mul]
  rw [if_neg h]

/-- **C7.** For every matched anchor that carries a bias, the rewrite
installs under the bias name a constant whose values are: the bias
multiplied elementwise by the scale when the scale is non-scalar
(rank > 0), and the bias scaled along its only axis by the scalar when
the scale is rank 0.  (The length hypotheses say the stored buffers are
sized to their dimension products, as the graph invariant requires.) -/
theorem claim_C7 (compat : List String) (g : Graph)
    (idx nextIdx : Nat) (conv mul : Node) (wp sp bp : TensorProto)
    (h1 : g.getNode idx = some conv)
    (hc : convCandidate compat conv = true)
    (he : conv.outputEdges = [nextIdx])
    (h2 : g.getNode nextIdx = some mul)
    (hm : mulCandidate g conv mul = true)
    (hw : wLookup g conv = some wp)
    (hs : sLookup g mul = some sp)
    (hg : shapeDtypeGate (some wp) (some sp) = true)
    (hb : biasCheck g conv sp = .ok bp)
    (hbn : bp.name = conv.inputDefs.getD 2 "")
    (hbl : bp.vals.length = bp.dims.prod)
    (hsl : sp.vals.length = sp.dims.prod) :
    (step compat g idx).1.getInitializedTensor (conv.inputDefs.getD 2 "")
      = some (some (fusedBias bp sp)) ∧
    (fusedBias bp sp).vals =
      (if sp.dims.length ≠ 0 then List.zipWith (· * ·) bp.vals sp.vals
       else bp.vals.map (· * sp.vals.headD 0)) := by
  constructor
  · have hred := step_matched h1 hc he h2 hm hw hs hg
    rw [hred, hb]
    exact doRewrite_getInit_bias g conv mul nextIdx wp sp bp hbn
  · by_cases h0 : sp.dims.length = 0
    · have hnil : sp.dims = [] := List.length_eq_zero.mp h0
      have hsize : (Initializer.ofProto sp).size = 1 := by
        simp [Initializer.ofProto, Initializer.size, hnil]
      rw [if_neg (by simp [h0])]
      show (fusedBias bp sp).vals = bp.vals.map (· * sp.vals.headD 0)
      unfold fusedBias
      rw [if_neg (by simp [h0])]
      show ((Initializer.ofProto bp).scale_by_axis (Initializer.ofProto sp) 0).data
        = bp.vals.map (· * sp.vals.headD 0)
      rw [scale_by_axis_broadcast _ _ _ hsize]
      rfl
    · -- non-scalar scale: the elementwise branch
      rw [if_pos h0]
      have hnn : sp.dims ≠ [] := fun hn => h0 (by rw [hn]; rfl)
      obtain ⟨d0, rest, hcons⟩ := List.exists_cons_of_ne_nil hnn
      -- trailing scale dimensions are all 1, so the scale size is d0
      have hg2 := hg
      unfold shapeDtypeGate at hg2
      simp only [Bool.and_eq_true, Bool.or_eq_true] at hg2
      have htail : sp.dims.tail.all (fun d => d == 1) = true := by
        rcases hg2.2 with hzero | htl
        · exact absurd (beq_iff_eq.mp hzero) h0
        · exact htl
      have hrest : rest.all (fun d => d == 1) = true := by
        rw [hcons] at htail; exact htail
      have hprod : sp.dims.prod = d0 := by
        rw [hcons, List.prod_cons, prod_eq_one_of_all_one hrest, Nat.mul_one]
      -- the bias gate: rank exactly 1, leading dimension equal to d0
      obtain ⟨h3len, hlkup, hgate⟩ := biasCheck_ok_inversion hb
      simp only [Bool.and_eq_true, Bool.or_eq_true] at hgate
      have hbd0 : bp.dims.getD 0 0 = d0 := by
        rcases hgate.2 with hzero | hlead
        · exact absurd (beq_iff_eq.mp hzero) h0
        · have hll := beq_iff_eq.mp hlead
          rw [hll, hcons]; rfl
      have hblen1 : bp.dims.length = 1 := beq_iff_eq.mp hgate.1.2
      obtain ⟨bd, hbd⟩ := List.length_eq_one.mp hblen1
      have hbd1 : bd = d0 := by rw [hbd] at hbd0; exact hbd0
      show (fusedBias bp sp).vals = List.zipWith (· * ·) bp.vals sp.vals
      unfold fusedBias
      rw [if_pos h0]
      by_cases hone : (Initializer.ofProto sp).size = 1
      · -- scale size 1 forces both buffers to be singletons
        have hd01 : d0 = 1 := by
          have hp1 : sp.dims.prod = 1 := hone
          rw [hprod] at hp1; exact hp1
        have hbv1 : bp.vals.length = 1 := by
          rw [hbl, hbd, hbd1, hd01]; rfl
        have hsv1 : sp.vals.length = 1 := by
          rw [hsl, hprod, hd01]
        obtain ⟨b, hbv⟩ := List.length_eq_one.mp hbv1
        obtain ⟨s, hsv⟩ := List.length_eq_one.mp hsv1
        show ((Initializer.ofProto bp).mul (Initializer.ofProto sp)).data
          = List.zipWith (· * ·) bp.vals sp.vals
        rw [mul_data_broadcast _ _ hone]
        show bp.vals.map (· * sp.vals.headD 0)
          = List.zipWith (· * ·) bp.vals sp.vals
        rw [hbv, hsv]
        rfl
      · show ((Initializer.ofProto bp).mul (Initializer.ofProto sp)).data
          = List.zipWith (· * ·) bp.vals sp.vals
        rw [mul_data_zipWith _ _ hone]
        rfl

/-- Witness for C7 at the §8 scenario: the fused bias installed under
`"B"` has values given by the elementwise product `[10,20] * [2,5]`. -/
theorem claim_C7_witness :
    (step [] exC1 0).1.getInitializedTensor (convA.inputDefs.getD 2 "")
      = some (some (fusedBias bA sA)) ∧
    (fusedBias bA sA).vals =
      (if sA.dims.length ≠ 0 then List.zipWith (· * ·) bA.vals sA.vals
       else bA.vals.map (· * sA.vals.headD 0)) :=
  claim_C7 [] exC1 0 1 convA mulA wA sA bA rfl (by decide) rfl rfl
    (by decide) rfl rfl (by decide) (by decide) rfl rfl rfl

/-- **C9.** For every successful fusion — bias-less or bias-carrying —
the replacement weight constant (and the replacement bias constant when a
bias is present) is installed under the original name and preserves the
name, dtype and dimension list of the tensor it replaces exactly; only
the value buffer differs.  A successful fusion's bias branch ends in
either `.noBias` (anchor declares no third input) or `.ok bp`; the two
conjuncts cover both. -/
theorem claim_C9 (compat : List String) (g : Graph)
    (idx nextIdx : Nat) (conv mul : Node) (wp sp : TensorProto)
    (h1 : g.getNode idx = some conv)
    (hc : convCandidate compat conv = true)
    (he : conv.outputEdges = [nextIdx])
    (h2 : g.getNode nextIdx = some mul)
    (hm : mulCandidate g conv mul = true)
    (hw : wLookup g conv = some wp)
    (hs : sLookup g mul = some sp)
    (hg : shapeDtypeGate (some wp) (some sp) = true)
    (hwn : wp.name = conv.inputDefs.getD 1 "") :
    (biasCheck g conv sp = .noBias →
      (step compat g idx).1.getInitializedTensor (conv.inputDefs.getD 1 "")
          = some (some (fusedWeight wp sp)) ∧
        (fusedWeight wp sp).dtype = wp.dtype ∧
        (fusedWeight wp sp).dims = wp.dims ∧
        (fusedWeight wp sp).name = wp.name) ∧
    (∀ bp : TensorProto, biasCheck g conv sp = .ok bp →
      bp.name = conv.inputDefs.getD 2 "" →
      conv.inputDefs.getD 1 "" ≠ conv.inputDefs.getD 2 "" →
      ((step compat g idx).1.getInitializedTensor (conv.inputDefs.getD 1 "")
          = some (some (fusedWeight wp sp)) ∧
        (fusedWeight wp sp).dtype = wp.dtype ∧
        (fusedWeight wp sp).dims = wp.dims ∧
        (fusedWeight wp sp).name = wp.name) ∧
      ((step compat g idx).1.getInitializedTensor (conv.inputDefs.getD 2 "")
          = some (some (fusedBias bp sp)) ∧
        (fusedBias bp sp).dtype = bp.dtype ∧
        (fusedBias bp sp).dims = bp.dims ∧
        (fusedBias bp sp).name = bp.name)) := by
  have hred := step_matched h1 hc he h2 hm hw hs hg
  constructor
  · intro hb
    rw [hred, hb]
    exact ⟨doRewrite_getInit_weight_noBias g conv mul nextIdx wp sp hwn,
      rfl, rfl, rfl⟩
  · intro bp hb hbn hnames
    rw [hred, hb]
    exact ⟨⟨doRewrite_getInit_weight g conv mul nextIdx wp sp bp hwn hbn hnames,
        rfl, rfl, rfl⟩,
      ⟨doRewrite_getInit_bias g conv mul nextIdx wp sp bp hbn, rfl, rfl, rfl⟩⟩

/-- Witness for C9, both branches: the bias-less fusion of `exSimple`
preserves the weight's metadata under `"W"`, and the bias-carrying §8
scenario preserves the bias's metadata under `"B"`. -/
theorem claim_C9_witness :
    ((step [] exSimple 0).1.getInitializedTensor (conv2in.inputDefs.getD 1 "")
        = some (some (fusedWeight wS sS)) ∧
      (fusedWeight wS sS).dtype = wS.dtype ∧
      (fusedWeight wS sS).dims = wS.dims ∧
      (fusedWeight wS sS).name = wS.name) ∧
    ((step [] exC1 0).1.getInitializedTensor (convA.inputDefs.getD 2 "")
        = some (some (fusedBias bA sA)) ∧
      (fusedBias bA sA).dtype = bA.dtype ∧
      (fusedBias bA sA).dims = bA.dims ∧
      (fusedBias bA sA).name = bA.name) :=
  ⟨(claim_C9 [] exSimple 0 1 conv2in mulSm wS sS rfl (by decide) rfl rfl
      (by decide) rfl rfl (by decide) rfl).1 (by decide),
   ((claim_C9 [] exC1 0 1 convA mulA wA sA rfl (by decide) rfl rfl
      (by decide) rfl rfl (by decide) rfl).2 bA (by decide) rfl
      (by decide)).2⟩

end ConvMulFusion
